import Mathlib

/-!
A verification development for `scripts/sync_google_ads.py`, the Google Ads →
Supabase daily ETL job of the guardian-ads-dashboard repository.

Modelling conventions: Python floats are modelled as exact rationals (`ℚ`),
Python strings as `String`, API row objects as structures holding exactly the
fields the script reads, and Python dicts as insertion-ordered association
lists with overwrite-in-place assignment.  Proto-plus enum values reach the
script only through `_ename` (the enum's upper-case name), so enum-valued row
fields are modelled as those name strings directly.
-/

set_option allowUnsafeReducibility true in
attribute [semireducible] Rat.mul Rat.inv Rat.add Rat.sub Rat.neg Rat.div Rat.ofScientific

set_option maxRecDepth 100000

namespace GuardianSync

/-- Python `str.lower`, character by character. -/
def pyLower (s : String) : String := String.mk (s.data.map Char.toLower)

/-- Contiguous-sublist test on character lists (an empty needle always occurs). -/
def listContains : List Char → List Char → Bool
  | _, [] => true
  | [], _ :: _ => false
  | c :: rest, n :: ns => (n :: ns).isPrefixOf (c :: rest) || listContains rest (n :: ns)

/-- Python `needle in haystack` on strings. -/
def strContains (hay needle : String) : Bool := listContains hay.data needle.data

/-- Python `haystack.startswith(p)`. -/
def pyStartsWith (s p : String) : Bool := p.data.isPrefixOf s.data

/-- Python `haystack.endswith(p)`. -/
def pyEndsWith (s p : String) : Bool := p.data.isSuffixOf s.data

/-- Python `sep.join(strings)`. -/
def joinSep (sep : String) : List String → String
  | [] => ""
  | [s] => s
  | s :: s2 :: rest => s ++ sep ++ joinSep sep (s2 :: rest)

/-- Python `s.strip()`. -/
def pyStrip (s : String) : String :=
  String.mk (((s.data.dropWhile Char.isWhitespace).reverse.dropWhile Char.isWhitespace).reverse)

/-- Python `s.isdigit()` (restricted to ASCII digits, all the script sees). -/
def pyIsDigit (s : String) : Bool := !s.data.isEmpty && s.data.all Char.isDigit

/-- Python `any(k in t for k in ks)`. -/
def kwAny (ks : List String) (t : String) : Bool := ks.any (fun k => strContains t k)

/-- Python dict assignment `d[k] = v`: overwrite the key in place, else append. -/
def dictInsert {κ β : Type} [DecidableEq κ] (k : κ) (v : β) : List (κ × β) → List (κ × β)
  | [] => [(k, v)]
  | (k0, v0) :: rest => if k0 = k then (k, v) :: rest else (k0, v0) :: dictInsert k v rest

/-- Python `d.get(k)`. -/
def dictGet? {κ β : Type} [DecidableEq κ] (k : κ) : List (κ × β) → Option β
  | [] => none
  | (k0, v0) :: rest => if k0 = k then some v0 else dictGet? k rest

/-- Python `d.get(k, dflt)`. -/
def dictGetD {κ β : Type} [DecidableEq κ] (k : κ) (dflt : β) (d : List (κ × β)) : β :=
  (dictGet? k d).getD dflt

/-- `_micros`: Google Ads cost fields are in micros (1/1,000,000 of a unit). -/
def _micros (val : Nat) : ℚ := (val : ℚ) / 1000000

/-- `_div`: division guarded by the truthiness of the denominator, 0.0 otherwise. -/
def _div (numerator denominator : ℚ) : ℚ :=
  if denominator = 0 then 0 else numerator / denominator

/-- Python `statistics.median`: middle of the sorted data, or the mean of the
two middle values on even length. -/
def pyMedian (vals : List ℚ) : ℚ :=
  let s := vals.insertionSort (· ≤ ·)
  let n := s.length
  if n % 2 = 1 then s.getD (n / 2) 0
  else (s.getD (n / 2 - 1) 0 + s.getD (n / 2) 0) / 2

/-- `_med`: median of the values, or 0.0 for an empty list. -/
def _med (vals : List ℚ) : ℚ := if vals = [] then 0 else pyMedian vals

/-- Fuel-driven body of `chunksOf`. -/
def chunksOfAux {α : Type} (n : Nat) : Nat → List α → List (List α)
  | _, [] => []
  | 0, _ :: _ => []
  | fuel + 1, x :: xs => (x :: xs).take n :: chunksOfAux n fuel ((x :: xs).drop n)

/-- The Python slicing loop `for i in range(0, len(l), n): l[i:i+n]`. -/
def chunksOf {α : Type} (n : Nat) (l : List α) : List (List α) := chunksOfAux n l.length l

/-- Truncation to a 32-bit word. -/
def w32 (n : Nat) : Nat := n % 4294967296

/-- 32-bit rotate right. -/
def rotr32 (r x : Nat) : Nat := w32 ((x >>> r) ||| (x <<< (32 - r)))

/-- The SHA-256 round constants (decimal rendering of the standard table). -/
def sha256K : List Nat :=
  [1116352408, 1899447441, 3049323471, 3921009573,
   961987163, 1508970993, 2453635748, 2870763221,
   3624381080, 310598401, 607225278, 1426881987,
   1925078388, 2162078206, 2614888103, 3248222580,
   3835390401, 4022224774, 264347078, 604807628,
   770255983, 1249150122, 1555081692, 1996064986,
   2554220882, 2821834349, 2952996808, 3210313671,
   3336571891, 3584528711, 113926993, 338241895,
   666307205, 773529912, 1294757372, 1396182291,
   1695183700, 1986661051, 2177026350, 2456956037,
   2730485921, 2820302411, 3259730800, 3345764771,
   3516065817, 3600352804, 4094571909, 275423344,
   430227734, 506948616, 659060556, 883997877,
   958139571, 1322822218, 1537002063, 1747873779,
   1955562222, 2024104815, 2227730452, 2361852424,
   2428436474, 2756734187, 3204031479, 3329325298]

/-- The SHA-256 initial hash value (decimal rendering of the standard table). -/
def sha256H0 : List Nat :=
  [1779033703, 3144134277, 1013904242, 2773480762,
   1359893119, 2600822924, 528734635, 1541459225]

def bigSigma0 (x : Nat) : Nat := rotr32 2 x ^^^ rotr32 13 x ^^^ rotr32 22 x

def bigSigma1 (x : Nat) : Nat := rotr32 6 x ^^^ rotr32 11 x ^^^ rotr32 25 x

def smallSigma0 (x : Nat) : Nat := rotr32 7 x ^^^ rotr32 18 x ^^^ (x >>> 3)

def smallSigma1 (x : Nat) : Nat := rotr32 17 x ^^^ rotr32 19 x ^^^ (x >>> 10)

/-- SHA-256 padding: a 0x80 byte, zeros, then the 64-bit big-endian bit length. -/
def padMessage (msg : List Nat) : List Nat :=
  let l := msg.length
  msg ++ [128] ++ List.replicate ((119 - l % 64) % 64) 0
      ++ (List.range 8).map (fun i => ((8 * l) >>> (56 - 8 * i)) % 256)

/-- Big-endian bytes to a machine word. -/
def bytesToWord (bs : List Nat) : Nat := bs.foldl (fun acc b => acc * 256 + b) 0

/-- One extension step of the SHA-256 message schedule. -/
def scheduleStep (acc : List Nat) : List Nat :=
  acc ++ [w32 (smallSigma1 (acc.getD (acc.length - 2) 0) + acc.getD (acc.length - 7) 0 +
               smallSigma0 (acc.getD (acc.length - 15) 0) + acc.getD (acc.length - 16) 0)]

def extendSchedule : Nat → List Nat → List Nat
  | 0, acc => acc
  | k + 1, acc => extendSchedule k (scheduleStep acc)

/-- One SHA-256 compression round; the state is the word list `[a,b,c,d,e,f,g,h]`. -/
def compressStep (st : List Nat) (kw : Nat × Nat) : List Nat :=
  let a := st.getD 0 0
  let b := st.getD 1 0
  let c := st.getD 2 0
  let d := st.getD 3 0
  let e := st.getD 4 0
  let f := st.getD 5 0
  let g := st.getD 6 0
  let h := st.getD 7 0
  let ch := (e &&& f) ^^^ ((4294967295 ^^^ e) &&& g)
  let t1 := w32 (h + bigSigma1 e + ch + kw.1 + kw.2)
  let maj := (a &&& b) ^^^ (a &&& c) ^^^ (b &&& c)
  let t2 := w32 (bigSigma0 a + maj)
  [w32 (t1 + t2), a, b, c, w32 (d + t1), e, f, g]

/-- Process one 64-byte block into the running hash value. -/
def processBlock (h : List Nat) (block : List Nat) : List Nat :=
  let ws := extendSchedule 48 ((chunksOf 4 block).map bytesToWord)
  let st := (sha256K.zip ws).foldl compressStep h
  (h.zip st).map (fun p => w32 (p.1 + p.2))

/-- The SHA-256 digest of a byte sequence, as eight 32-bit words. -/
def sha256Words (msg : List Nat) : List Nat :=
  (chunksOf 64 (padMessage msg)).foldl processBlock sha256H0

def hexChars : List Char := "0123456789abcdef".data

def hexDigitChar (n : Nat) : Char := hexChars.getD n '0'

def wordToHex (w : Nat) : List Char :=
  (List.range 8).map (fun i => hexDigitChar ((w >>> (28 - 4 * i)) % 16))

/-- Python `hashlib.sha256(bytes).hexdigest()`. -/
def sha256Hex (msg : List Nat) : String := String.mk ((sha256Words msg).map wordToHex).flatten

/-- UTF-8 encoding of one character. -/
def utf8EncodeChar (c : Char) : List Nat :=
  let n := c.toNat
  if n < 128 then [n]
  else if n < 2048 then [192 ||| (n >>> 6), 128 ||| (n &&& 63)]
  else if n < 65536 then [224 ||| (n >>> 12), 128 ||| ((n >>> 6) &&& 63), 128 ||| (n &&& 63)]
  else [240 ||| (n >>> 18), 128 ||| ((n >>> 12) &&& 63), 128 ||| ((n >>> 6) &&& 63), 128 ||| (n &&& 63)]

/-- Python `str.encode()` (UTF-8). -/
def utf8Bytes (s : String) : List Nat := (s.data.map utf8EncodeChar).flatten

/-- `_make_id(*parts)`: deterministic 16-char hex hash from composite key parts
(the parts arrive already stringified, as `str(p)` does in the source). -/
def _make_id (parts : List String) : String :=
  String.mk ((sha256Hex (utf8Bytes (joinSep "|" parts))).data.take 16)

/-- Decimal digits of a natural number (`Nat.toDigits` is fuel-structural). -/
def natDigits (n : Nat) : List Char := Nat.toDigits 10 n

/-- Thousands grouping of a digit list, most-significant digit first. -/
def commaGroup (ds : List Char) : List Char :=
  ((chunksOf 3 ds.reverse).intersperse [',']).flatten.reverse

/-- Rational floor, written directly over the normalised representation so it
evaluates by reduction. -/
def ratFloor (q : ℚ) : Int := Int.fdiv q.num q.den

/-- Python fixed-point format specifiers `:.df` and `:,.df`, idealised over the
exact rationals that model the script's floats (round half to even). -/
def pyFormat (comma : Bool) (decimals : Nat) (q : ℚ) : String :=
  let scaled : ℚ := q * (10 : ℚ) ^ decimals
  let fl : Int := ratFloor scaled
  let frac : ℚ := scaled - (fl : ℚ)
  let rounded : Int :=
    if (1 : ℚ) / 2 < frac then fl + 1
    else if frac < (1 : ℚ) / 2 then fl
    else if fl % 2 = 0 then fl else fl + 1
  let n := rounded.natAbs
  let ip := n / 10 ^ decimals
  let fp := n % 10 ^ decimals
  let ipStr := String.mk (if comma then commaGroup (natDigits ip) else natDigits ip)
  let fpStr := String.mk (List.replicate (decimals - (natDigits fp).length) '0' ++ natDigits fp)
  (if rounded < 0 then "-" else "") ++ ipStr ++ (if decimals = 0 then "" else "." ++ fpStr)

/-- `infer_product`: first matching product category, checked in priority order. -/
def infer_product (text : String) : String :=
  let t := pyLower text
  if kwAny ["termlife", "term life", "term-life", "life insurance"] t then "Term Life"
  else if strContains t "dental" then "Dental Network"
  else if kwAny ["disability", "idi"] t then "Disability"
  else if kwAny ["annuity", "annuities", "rila", "retirement"] t then "Annuities"
  else if kwAny ["recruit", "credential", "join", "provider"] t then "Join Our Network"
  else "Other"

/-- `infer_intent_bucket`: lower-cased keyword matching with the source's
branch order. -/
def infer_intent_bucket (text : String) : String :=
  let t := pyLower text
  let has_nonbrand := kwAny ["nonbrand", "non-brand", "nonbranded", "non-branded"] t
  if strContains t "google_brand" || pyStartsWith t "google_brand" then "Brand"
  else if !has_nonbrand && (strContains t "-brand-" || strContains t "-branded" || pyEndsWith t "-branded") then "Brand"
  else if kwAny ["group", "employer", "worksite", "abm-"] t then "Group"
  else if kwAny ["leadgen", "conversion", "quote", "quotes"] t then "Nonbrand Lead Gen"
  else if kwAny ["midfunnel", "education", "alwayson", "traffic", "awareness"] t then "Education/Midfunnel"
  else "Education/Midfunnel"

/-- `_classify_search_term`: three-way label plus human-readable reason. -/
def _classify_search_term (spend conversions cpa median_cpa : ℚ) : String × String :=
  if 1 ≤ conversions then
    if median_cpa = 0 ∨ (0 < cpa ∧ cpa ≤ median_cpa * 0.8) then
      ("winner", "Converted (" ++ pyFormat false 1 conversions ++ ") with efficient CPA ($"
        ++ pyFormat true 2 cpa ++ ").")
    else
      ("neutral", "Converted (" ++ pyFormat false 1 conversions ++ ") but CPA above efficient threshold.")
  else if 100 ≤ spend ∧ conversions = 0 then
    ("loser", "Spent $" ++ pyFormat true 2 spend ++ " with 0 conversions.")
  else
    ("neutral", "Mixed signal (spend $" ++ pyFormat true 2 spend ++ ", conv "
      ++ pyFormat false 1 conversions ++ ").")

/-- `_STATUS_MAP`. -/
def _STATUS_MAP : List (String × String) :=
  [("ENABLED", "enabled"), ("PAUSED", "paused"), ("REMOVED", "ended")]

/-- `_MATCH_MAP`. -/
def _MATCH_MAP : List (String × String) :=
  [("EXACT", "Exact"), ("PHRASE", "Phrase"), ("BROAD", "Broad")]

/-- `_lookup(table, val, fallback)`; `_ename` has already been applied, so the
value arrives as the enum name string. -/
def _lookup (table : List (String × String)) (val fallback : String) : String :=
  dictGetD val fallback table

/-- `_US_STATE_CODE_BY_NAME`. -/
def _US_STATE_CODE_BY_NAME : List (String × String) :=
  [("Alabama", "AL"), ("Alaska", "AK"), ("Arizona", "AZ"), ("Arkansas", "AR"),
   ("California", "CA"), ("Colorado", "CO"), ("Connecticut", "CT"), ("Delaware", "DE"),
   ("District of Columbia", "DC"), ("Florida", "FL"), ("Georgia", "GA"), ("Hawaii", "HI"),
   ("Idaho", "ID"), ("Illinois", "IL"), ("Indiana", "IN"), ("Iowa", "IA"),
   ("Kansas", "KS"), ("Kentucky", "KY"), ("Louisiana", "LA"), ("Maine", "ME"),
   ("Maryland", "MD"), ("Massachusetts", "MA"), ("Michigan", "MI"), ("Minnesota", "MN"),
   ("Mississippi", "MS"), ("Missouri", "MO"), ("Montana", "MT"), ("Nebraska", "NE"),
   ("Nevada", "NV"), ("New Hampshire", "NH"), ("New Jersey", "NJ"), ("New Mexico", "NM"),
   ("New York", "NY"), ("North Carolina", "NC"), ("North Dakota", "ND"), ("Ohio", "OH"),
   ("Oklahoma", "OK"), ("Oregon", "OR"), ("Pennsylvania", "PA"), ("Rhode Island", "RI"),
   ("South Carolina", "SC"), ("South Dakota", "SD"), ("Tennessee", "TN"), ("Texas", "TX"),
   ("Utah", "UT"), ("Vermont", "VT"), ("Virginia", "VA"), ("Washington", "WA"),
   ("West Virginia", "WV"), ("Wisconsin", "WI"), ("Wyoming", "WY")]

/-- A `campaign` report row, holding the fields `_xf_campaigns` reads. -/
structure CampaignRow where
  campaign_id : Nat
  campaign_name : String
  status : String
  cost_micros : Nat
  impressions : Nat
  clicks : Nat
  conversions : ℚ
  conversions_value : ℚ
  ctr : ℚ
  average_cpc : Nat
  search_impression_share : ℚ
  lost_is_budget : ℚ
  lost_is_rank : ℚ
  date : String
deriving DecidableEq

/-- The Output Record built by `_xf_campaigns` for one row. -/
structure CampaignRec where
  id : String
  date : String
  campaign_name : String
  product : String
  intent_bucket : String
  status : String
  spend : ℚ
  impressions : Nat
  clicks : Nat
  conversions : ℚ
  conversion_value : ℚ
  ctr : ℚ
  cpc : ℚ
  cpa : ℚ
  roas : ℚ
  conv_rate : ℚ
  search_impression_share : ℚ
  lost_is_budget : ℚ
  lost_is_rank : ℚ
deriving DecidableEq

/-- `_xf_campaigns`. -/
def _xf_campaigns (rows : List CampaignRow) : List CampaignRec :=
  rows.map fun r =>
    let spend := _micros r.cost_micros
    let convs := r.conversions
    let conv_val := r.conversions_value
    let clicks := r.clicks
    { id := toString r.campaign_id
      date := r.date
      campaign_name := r.campaign_name
      product := infer_product r.campaign_name
      intent_bucket := infer_intent_bucket r.campaign_name
      status := dictGetD r.status "paused" _STATUS_MAP
      spend := spend
      impressions := r.impressions
      clicks := clicks
      conversions := convs
      conversion_value := conv_val
      ctr := r.ctr
      cpc := _micros r.average_cpc
      cpa := _div spend convs
      roas := _div conv_val spend
      conv_rate := _div convs (clicks : ℚ)
      search_impression_share := r.search_impression_share
      lost_is_budget := r.lost_is_budget
      lost_is_rank := r.lost_is_rank }

/-- A `search_term_view` report row, holding the fields `_xf_search_terms` reads. -/
structure SearchTermRow where
  search_term : String
  campaign_id : Nat
  campaign_name : String
  ad_group_id : Nat
  ad_group_name : String
  keyword_match_type : String
  cost_micros : Nat
  impressions : Nat
  clicks : Nat
  conversions : ℚ
  conversions_value : ℚ
  ctr : ℚ
  date : String
deriving DecidableEq

/-- The Output Record built by `_xf_search_terms` for one row. -/
structure SearchTermRec where
  id : String
  date : String
  search_term : String
  campaign_id : String
  campaign_name : String
  ad_group_id : String
  ad_group_name : String
  match_type : String
  label : String
  reason : String
  spend : ℚ
  impressions : Nat
  clicks : Nat
  conversions : ℚ
  conversion_value : ℚ
  cpa : ℚ
  ctr : ℚ
deriving DecidableEq

/-- The Output Record `_xf_search_terms` appends for one kept base tuple
`(spend, conversions, cpa, row)` once the batch median CPA is known. -/
def mkSearchTermRec (s c cpa m : ℚ) (r : SearchTermRow) : SearchTermRec :=
  { id := _make_id [toString r.campaign_id, toString r.ad_group_id, r.search_term, r.keyword_match_type]
    date := r.date
    search_term := r.search_term
    campaign_id := toString r.campaign_id
    campaign_name := r.campaign_name
    ad_group_id := toString r.ad_group_id
    ad_group_name := r.ad_group_name
    match_type := _lookup _MATCH_MAP r.keyword_match_type "Broad"
    label := (_classify_search_term s c cpa m).1
    reason := (_classify_search_term s c cpa m).2
    spend := s
    impressions := r.impressions
    clicks := r.clicks
    conversions := c
    conversion_value := r.conversions_value
    cpa := cpa
    ctr := r.ctr }

/-- The base pass of `_xf_search_terms`: per-row `(spend, conversions, cpa, row)`. -/
def stBase (rows : List SearchTermRow) : List (ℚ × ℚ × ℚ × SearchTermRow) :=
  rows.map fun r =>
    let spend := _micros r.cost_micros
    let convs := r.conversions
    (spend, convs, _div spend convs, r)

/-- The `median_cpa` of one `_xf_search_terms` batch: the median of `cpa` over
the base tuples with conversions > 0 and cpa > 0, or 0 if that subset is empty. -/
def batchMedianCpa (rows : List SearchTermRow) : ℚ :=
  _med (((stBase rows).filter fun q => decide (0 < q.2.1) && decide (0 < q.2.2.1)).map
    fun q => q.2.2.1)

/-- `_xf_search_terms`: two-pass — collect base data, compute median CPA,
then classify, skipping rows whose search term is empty. -/
def _xf_search_terms (rows : List SearchTermRow) : List SearchTermRec :=
  (stBase rows).filterMap fun q =>
    if q.2.2.2.search_term = "" then none
    else some (mkSearchTermRec q.1 q.2.1 q.2.2.1 (batchMedianCpa rows) q.2.2.2)

/-- A record as `_upsert`/`_dedupe` see it: the (id, date) uniqueness key plus
the rest of the dict, abstracted into one payload field. -/
structure UpsertRec where
  id : String
  date : String
  payload : Nat
deriving DecidableEq

def dfltUpsertRec : UpsertRec := { id := "", date := "", payload := 0 }

/-- The `(rec["id"], rec["date"])` key used by `_dedupe`. -/
def recKey (r : UpsertRec) : String × String := (r.id, r.date)

/-- The `seen` dict of `_dedupe`: key ↦ index, filled in input order so a later
duplicate overwrites the earlier index. -/
def buildSeen (records : List UpsertRec) : List ((String × String) × Nat) :=
  records.enum.foldl (fun acc p => dictInsert (recKey p.2) p.1 acc) []

/-- `_dedupe`: keep the last record per (id, date); a dict from key to index is
filled in input order, and the surviving indices are read back sorted. -/
def _dedupe (records : List UpsertRec) : List UpsertRec :=
  (((buildSeen records).map Prod.snd).insertionSort (· ≤ ·)).map
    fun i => records.getD i dfltUpsertRec

/-- Modelled from the claim: index `i` holds the last occurrence of its
(id, date) key in `records`. -/
def isLastOccurrence (records : List UpsertRec) (i : Nat) : Bool :=
  (List.range records.length).all fun j =>
    decide (j ≤ i) || decide (recKey (records.getD j dfltUpsertRec) ≠ recKey (records.getD i dfltUpsertRec))

/-- Modelled from the claim: the records that are the last occurrence of their
(id, date) key, kept in input order. -/
def lastOccurrences (records : List UpsertRec) : List UpsertRec :=
  ((List.range records.length).filter fun i => isLastOccurrence records i).map
    fun i => records.getD i dfltUpsertRec

/-- A `geo_target_constant` reference row, as read by `_geo_target_details`. -/
structure GeoConstantRow where
  id : Nat
  name : String
  canonical_name : String
  target_type : String
  country_code : String
deriving DecidableEq

/-- The `{name, canonical_name, target_type, country_code}` dict built per
resolved criterion id. -/
structure GeoInfo where
  name : String
  canonical_name : String
  target_type : String
  country_code : String
deriving DecidableEq

/-- The geo-performance Output Record, as `_xf_geo_performance` emits it and
`_enrich_geo_records` rewrites it. -/
structure GeoRec where
  id : String
  date : String
  campaign_id : String
  state : String
  state_code : String
  dma : String
  spend : ℚ
  impressions : Nat
  clicks : Nat
  conversions : ℚ
  conversion_value : ℚ
  ctr : ℚ
  cpc : ℚ
  cpa : ℚ
  roas : ℚ
  conv_rate : ℚ
deriving DecidableEq

/-- The `{name, canonical_name, target_type, country_code}` dict built from one
reference row; `str(geo.id)` keys the mapping. -/
def geoInfoOf (row : GeoConstantRow) : GeoInfo :=
  { name := row.name
    canonical_name := row.canonical_name
    target_type := row.target_type
    country_code := row.country_code }

/-- The inner-loop body of `_geo_target_details`: `resolved[cid] = {...}`. -/
def geoInsert (res : List (String × GeoInfo)) (row : GeoConstantRow) :
    List (String × GeoInfo) :=
  dictInsert (toString row.id) (geoInfoOf row) res

/-- `_geo_target_details`: resolve criterion ids chunk by chunk (≤ 200 ids per
query); `lookup` stands for one `_run_gaql` reference query over a chunk. -/
def _geo_target_details (lookup : List String → List GeoConstantRow)
    (criterion_ids : List String) : List (String × GeoInfo) :=
  if criterion_ids = [] then []
  else
    (chunksOf 200 criterion_ids).foldl
      (fun resolved chunk => (lookup chunk).foldl geoInsert resolved) []

/-- The last reference row carrying criterion id `k` (later rows overwrite
earlier ones in the resolved dict). -/
def findLastGeoRow (rows : List GeoConstantRow) (k : String) : Option GeoConstantRow :=
  rows.reverse.find? fun row => toString row.id = k

/-- The distinct digit-only `state_code` identifiers of the records, sorted —
the `sorted({...})` set comprehension in `_enrich_geo_records`. -/
def geoCriterionIds (records : List GeoRec) : List String :=
  (((records.map fun r => pyStrip r.state_code).filter fun s => pyIsDigit s).dedup).insertionSort (· ≤ ·)

/-- The second-pass body of `_enrich_geo_records` on one record. -/
def enrichGeoRecord (details : List (String × GeoInfo)) (rec : GeoRec) : GeoRec :=
  let raw_id := pyStrip rec.state_code
  match dictGet? raw_id details with
  | none => rec
  | some info =>
    let rec1 :=
      if info.country_code = "US" ∧ (info.target_type = "State" ∨ info.target_type = "Province") then
        { rec with state := info.name, state_code := dictGetD info.name raw_id _US_STATE_CODE_BY_NAME }
      else
        { rec with state := (if info.canonical_name = "" then info.name else info.canonical_name)
                 , state_code := raw_id }
    { rec1 with dma := info.target_type }

/-- `_enrich_geo_records`. -/
def _enrich_geo_records (lookup : List String → List GeoConstantRow)
    (records : List GeoRec) : List GeoRec :=
  let details := _geo_target_details lookup (geoCriterionIds records)
  records.map fun rec => enrichGeoRecord details rec

/-- The outcome of processing one entity inside the `sync` loop: either the
row count `_upsert` returned, or the message of the exception raised. -/
inductive EntityResult where
  | ok (upserted : Nat)
  | err (msg : String)
deriving DecidableEq

/-- `f"{name}: {exc}"`. -/
def errString (name msg : String) : String := name ++ ": " ++ msg

/-- What the `sync_log` insert did: raised, or returned its `data` rows (each
carrying the new row's id). -/
inductive InsertOutcome where
  | raised (msg : String)
  | returned (rowIds : List Nat)
deriving DecidableEq

/-- The observable result of one `sync` run: the in-memory total and error
list, the `sync_log` update fields (absent when no run id was captured), and
the process exit code. -/
structure RunResult where
  totalRecords : Nat
  errors : List String
  finalStatus : Option String
  finalRecords : Option Nat
  finalErrorMessage : Option (Option String)
  exitCode : Nat
deriving DecidableEq

/-- The entity loop of `sync`: accumulate the running total and the error
strings in catalog order. -/
def processEntities (entities : List (String × EntityResult)) : Nat × List String :=
  entities.foldl
    (fun acc e =>
      match e.2 with
      | .ok n => (acc.1 + n, acc.2)
      | .err m => (acc.1, acc.2 ++ [errString e.1 m]))
    (0, [])

/-- The sum of the succeeding entities' upserted row counts. -/
def sumOk (entities : List (String × EntityResult)) : Nat :=
  (entities.map fun e => match e.2 with | .ok n => n | .err _ => 0).sum

/-- The error strings of the failing entities, in catalog order. -/
def errList (entities : List (String × EntityResult)) : List String :=
  entities.filterMap fun e => match e.2 with | .ok _ => none | .err m => some (errString e.1 m)

/-- `sync`: insert the run record (an uncaught exception there propagates),
run every entity inside its own try/except, then finalise the run record when
an id was captured and exit non-zero when any entity failed. -/
def sync (insertOutcome : InsertOutcome) (entities : List (String × EntityResult)) :
    Except String RunResult :=
  match insertOutcome with
  | .raised msg => Except.error msg
  | .returned data =>
    let sync_id : Option Nat := data.head?
    let te := processEntities entities
    let errors := te.2
    Except.ok
      { totalRecords := te.1
        errors := errors
        finalStatus := if sync_id.isSome then some (if errors = [] then "success" else "error") else none
        finalRecords := if sync_id.isSome then some te.1 else none
        finalErrorMessage :=
          if sync_id.isSome then some (if errors = [] then none else some (joinSep "; " errors)) else none
        exitCode := if errors = [] then 0 else 1 }

/-- Fixture: a search-term row with a non-empty term (spend $100, 1 conversion,
so its CPA is $100). -/
def stRowA : SearchTermRow :=
  { search_term := "guardian life insurance"
    campaign_id := 123
    campaign_name := "TermLife_NonBrand"
    ad_group_id := 456
    ad_group_name := "AG"
    keyword_match_type := "EXACT"
    cost_micros := 100000000
    impressions := 50
    clicks := 10
    conversions := 1
    conversions_value := 500
    ctr := 1 / 5
    date := "2026-02-17" }

/-- Fixture: a search-term row whose term is empty (spend $400, 1 conversion,
so its CPA is $400); `_xf_search_terms` skips it but samples its CPA. -/
def stRowE : SearchTermRow :=
  { search_term := ""
    campaign_id := 123
    campaign_name := "TermLife_NonBrand"
    ad_group_id := 456
    ad_group_name := "AG"
    keyword_match_type := "BROAD"
    cost_micros := 400000000
    impressions := 80
    clicks := 20
    conversions := 1
    conversions_value := 800
    ctr := 1 / 4
    date := "2026-02-17" }

def dfltSearchTermRec : SearchTermRec :=
  { id := "", date := "", search_term := "", campaign_id := "", campaign_name := ""
    ad_group_id := "", ad_group_name := "", match_type := "", label := "", reason := ""
    spend := 0, impressions := 0, clicks := 0, conversions := 0, conversion_value := 0
    cpa := 0, ctr := 0 }

/-- The brand branch conditions of `infer_intent_bucket` (the dash-spelled
brand indicators are negated by a non-brand keyword, the `google_brand`
indicator is checked before them). -/
def brandHit (t : String) : Bool :=
  (strContains t "google_brand" || pyStartsWith t "google_brand") ||
    (!kwAny ["nonbrand", "non-brand", "nonbranded", "non-branded"] t &&
      (strContains t "-brand-" || strContains t "-branded" || pyEndsWith t "-branded"))

/-- The group/employer branch condition of `infer_intent_bucket`. -/
def groupHit (t : String) : Bool := kwAny ["group", "employer", "worksite", "abm-"] t

/-- The lead-gen branch condition of `infer_intent_bucket`. -/
def leadgenHit (t : String) : Bool := kwAny ["leadgen", "conversion", "quote", "quotes"] t

/-- The midfunnel branch condition of `infer_intent_bucket`. -/
def midfunnelHit (t : String) : Bool :=
  kwAny ["midfunnel", "education", "alwayson", "traffic", "awareness"] t

/-- Fixture: a campaign row whose conversions, spend and clicks are all zero. -/
def campRow0 : CampaignRow :=
  { campaign_id := 77
    campaign_name := "Generic Campaign"
    status := "ENABLED"
    cost_micros := 0
    impressions := 100
    clicks := 0
    conversions := 0
    conversions_value := 0
    ctr := 0
    average_cpc := 0
    search_impression_share := 1 / 2
    lost_is_budget := 0
    lost_is_rank := 0
    date := "2026-02-17" }

def dfltCampaignRec : CampaignRec :=
  { id := "", date := "", campaign_name := "", product := "", intent_bucket := ""
    status := "", spend := 0, impressions := 0, clicks := 0, conversions := 0
    conversion_value := 0, ctr := 0, cpc := 0, cpa := 0, roas := 0, conv_rate := 0
    search_impression_share := 0, lost_is_budget := 0, lost_is_rank := 0 }

/-- Fixture: a geo record whose `state_code` still holds a raw criterion id. -/
def geoRec0 : GeoRec :=
  { id := "abc", date := "2026-02-17", campaign_id := "77"
    state := "21137", state_code := "21137", dma := "UNKNOWN"
    spend := 10, impressions := 5, clicks := 2, conversions := 1
    conversion_value := 3, ctr := 2 / 5, cpc := 5, cpa := 10, roas := 3 / 10
    conv_rate := 1 / 2 }

/-- Fixture: the reference row resolving criterion id 21137 to Minnesota. -/
def geoConst0 : GeoConstantRow :=
  { id := 21137, name := "Minnesota", canonical_name := "Minnesota,United States"
    target_type := "State", country_code := "US" }

/-- Fixture: two upsert records sharing one (id, date) key. -/
def upsA : UpsertRec := { id := "k1", date := "2026-02-17", payload := 1 }

def upsB : UpsertRec := { id := "k1", date := "2026-02-17", payload := 2 }

/-- C1: for every input row, each derived ratio field computed by the shared
formulas is the guarded quotient `_div`, hence zero whenever its denominator is
zero — `cpa = spend/conversions` is 0 at conversions = 0, `roas =
conversion_value/spend` is 0 at spend = 0, `conv_rate = conversions/clicks` is
0 at clicks = 0 — and, the ratios being total rationals, no Output Record
carries an undefined or infinite value. -/
theorem campaign_ratios_safe (rows : List CampaignRow) (rec : CampaignRec)
    (h : rec ∈ _xf_campaigns rows) :
    rec.cpa = _div rec.spend rec.conversions ∧
    rec.roas = _div rec.conversion_value rec.spend ∧
    rec.conv_rate = _div rec.conversions (rec.clicks : ℚ) ∧
    (rec.conversions = 0 → rec.cpa = 0) ∧
    (rec.spend = 0 → rec.roas = 0) ∧
    (rec.clicks = 0 → rec.conv_rate = 0) := by
  simp only [_xf_campaigns, List.mem_map] at h
  obtain ⟨r, hr, rfl⟩ := h
  refine ⟨rfl, rfl, rfl, fun h0 => ?_, fun h0 => ?_, fun h0 => ?_⟩
  · simp only [_div]
    simp_all
  · simp only [_div]
    simp_all
  · simp only [_div]
    simp_all [h0]

theorem campaign_ratios_safe_witness :
    ((_xf_campaigns [campRow0]).getD 0 dfltCampaignRec ∈ _xf_campaigns [campRow0]) ∧
    ((_xf_campaigns [campRow0]).getD 0 dfltCampaignRec).cpa = 0 ∧
    ((_xf_campaigns [campRow0]).getD 0 dfltCampaignRec).roas = 0 ∧
    ((_xf_campaigns [campRow0]).getD 0 dfltCampaignRec).conv_rate = 0 :=
  ⟨by decide,
   (campaign_ratios_safe [campRow0] _ (by decide)).2.2.2.1 (by decide),
   (campaign_ratios_safe [campRow0] _ (by decide)).2.2.2.2.1 (by decide),
   (campaign_ratios_safe [campRow0] _ (by decide)).2.2.2.2.2 (by decide)⟩

/-- C4: `infer_intent_bucket` lower-cases its input and applies the stated
precedence — the brand indicators (the dash-spelled ones negated by a
non-brand keyword) beat the group/employer keywords, which beat the lead-gen
keywords, which beat the midfunnel keywords, with "Education/Midfunnel" as the
default fallback — and the two quoted evaluations hold. -/
theorem intent_bucket_precedence :
    (∀ text : String, brandHit (pyLower text) = true → infer_intent_bucket text = "Brand") ∧
    (∀ text : String, brandHit (pyLower text) = false → groupHit (pyLower text) = true →
      infer_intent_bucket text = "Group") ∧
    (∀ text : String, brandHit (pyLower text) = false → groupHit (pyLower text) = false →
      leadgenHit (pyLower text) = true → infer_intent_bucket text = "Nonbrand Lead Gen") ∧
    (∀ text : String, brandHit (pyLower text) = false → groupHit (pyLower text) = false →
      leadgenHit (pyLower text) = false → infer_intent_bucket text = "Education/Midfunnel") ∧
    infer_intent_bucket "google_brand_search" = "Brand" ∧
    infer_intent_bucket "leadgen-quotes-nonbrand" = "Nonbrand Lead Gen" := by
  refine ⟨?_, ?_, ?_, ?_, by decide, by decide⟩
  · intro text h
    simp only [brandHit, Bool.or_eq_true] at h
    unfold infer_intent_bucket
    rcases h with h1 | h2
    · simp [h1]
    · cases hc : (strContains (pyLower text) "google_brand" || pyStartsWith (pyLower text) "google_brand") <;>
        simp [hc, h2]
  · intro text hb hg
    simp only [brandHit, Bool.or_eq_false_iff] at hb
    unfold infer_intent_bucket groupHit at *
    simp [hb.1, hb.2, hg]
  · intro text hb hg hl
    simp only [brandHit, Bool.or_eq_false_iff] at hb
    unfold infer_intent_bucket groupHit leadgenHit at *
    simp [hb.1, hb.2, hg, hl]
  · intro text hb hg hl
    simp only [brandHit, Bool.or_eq_false_iff] at hb
    unfold infer_intent_bucket groupHit leadgenHit at *
    cases hm : midfunnelHit (pyLower text) <;>
      [skip; skip] <;> unfold midfunnelHit at hm <;> simp [hb.1, hb.2, hg, hl, hm]

theorem intent_bucket_precedence_witness :
    brandHit (pyLower "My-Brand-Campaign") = true ∧
    infer_intent_bucket "My-Brand-Campaign" = "Brand" :=
  ⟨by decide, intent_bucket_precedence.1 "My-Brand-Campaign" (by decide)⟩

theorem compressStep_length (st : List Nat) (kw : Nat × Nat) :
    (compressStep st kw).length = 8 := rfl

theorem foldl_compressStep_length (l : List (Nat × Nat)) (st : List Nat) (h : st.length = 8) :
    (l.foldl compressStep st).length = 8 := by
  induction l generalizing st with
  | nil => simpa using h
  | cons a t ih => exact ih _ (compressStep_length _ _)

theorem processBlock_length (h : List Nat) (block : List Nat) (hh : h.length = 8) :
    (processBlock h block).length = 8 := by
  unfold processBlock
  have hst := foldl_compressStep_length
    (sha256K.zip (extendSchedule 48 ((chunksOf 4 block).map bytesToWord))) h hh
  simp [List.length_zip, hh, hst]

theorem foldl_processBlock_length (blocks : List (List Nat)) (h : List Nat) (hh : h.length = 8) :
    (blocks.foldl processBlock h).length = 8 := by
  induction blocks generalizing h with
  | nil => simpa using hh
  | cons b t ih => exact ih _ (processBlock_length _ _ hh)

theorem sha256Words_length (msg : List Nat) : (sha256Words msg).length = 8 :=
  foldl_processBlock_length _ _ rfl

theorem wordToHex_length (w : Nat) : (wordToHex w).length = 8 := by simp [wordToHex]

theorem flatten_wordToHex_length (ws : List Nat) :
    ((ws.map wordToHex).flatten).length = 8 * ws.length := by
  induction ws with
  | nil => simp
  | cons w t ih => simp [ih, wordToHex_length]; omega

theorem sha256Hex_data_length (msg : List Nat) : (sha256Hex msg).data.length = 64 := by
  show ((sha256Words msg).map wordToHex).flatten.length = 64
  rw [flatten_wordToHex_length, sha256Words_length]

theorem hexDigitChar_mem (n : Nat) : hexDigitChar n ∈ hexChars := by
  unfold hexDigitChar
  rcases Nat.lt_or_ge n hexChars.length with h | h
  · rw [List.getD_eq_getElem _ _ h]
    exact List.getElem_mem h
  · rw [List.getD_eq_default _ _ h]
    decide

/-- C9: `_make_id` is a pure function of exactly its composite key parts — the
same parts always yield the same identifier — and its value is the leading 16
hex digits of the SHA-256 digest of the parts joined by `"|"`: a 16-character
string over the lowercase hex alphabet. -/
theorem make_id_deterministic_hex :
    (∀ parts : List String,
      _make_id parts = String.mk ((sha256Hex (utf8Bytes (joinSep "|" parts))).data.take 16)) ∧
    (∀ p q : List String, p = q → _make_id p = _make_id q) ∧
    (∀ parts : List String, (_make_id parts).length = 16) ∧
    (∀ parts : List String, ∀ c ∈ (_make_id parts).data, c ∈ hexChars) := by
  refine ⟨fun parts => rfl, fun p q h => congrArg _ h, fun parts => ?_, fun parts c hc => ?_⟩
  · show ((sha256Hex (utf8Bytes (joinSep "|" parts))).data.take 16).length = 16
    rw [List.length_take, sha256Hex_data_length]
    decide
  · have h1 : c ∈ (sha256Hex (utf8Bytes (joinSep "|" parts))).data := List.mem_of_mem_take hc
    have h2 : c ∈ ((sha256Words (utf8Bytes (joinSep "|" parts))).map wordToHex).flatten := h1
    rw [List.mem_flatten] at h2
    obtain ⟨chunk, hchunk, hcc⟩ := h2
    rw [List.mem_map] at hchunk
    obtain ⟨w, _, rfl⟩ := hchunk
    unfold wordToHex at hcc
    rw [List.mem_map] at hcc
    obtain ⟨i, _, rfl⟩ := hcc
    exact hexDigitChar_mem _

theorem classify_label_iff (s c cpa m : ℚ) :
    ((_classify_search_term s c cpa m).1 = "winner" ↔
      1 ≤ c ∧ (m = 0 ∨ (0 < cpa ∧ cpa ≤ m * 0.8))) ∧
    ((_classify_search_term s c cpa m).1 = "loser" ↔ c < 1 ∧ 100 ≤ s ∧ c = 0) ∧
    ((_classify_search_term s c cpa m).1 = "neutral" ↔
      ¬(1 ≤ c ∧ (m = 0 ∨ (0 < cpa ∧ cpa ≤ m * 0.8))) ∧ ¬(c < 1 ∧ 100 ≤ s ∧ c = 0)) := by
  unfold _classify_search_term
  split_ifs with h1 h2 h3 <;>
    refine ⟨?_, ?_, ?_⟩ <;>
    simp_all

theorem mem_xf_search_terms (rows : List SearchTermRow) (rec : SearchTermRec) :
    rec ∈ _xf_search_terms rows ↔
      ∃ r ∈ rows, r.search_term ≠ "" ∧
        rec = mkSearchTermRec (_micros r.cost_micros) r.conversions
          (_div (_micros r.cost_micros) r.conversions) (batchMedianCpa rows) r := by
  unfold _xf_search_terms stBase
  rw [List.mem_filterMap]
  constructor
  · rintro ⟨q, hq, hsome⟩
    rw [List.mem_map] at hq
    obtain ⟨r, hr, rfl⟩ := hq
    by_cases ht : r.search_term = ""
    · rw [if_pos ht] at hsome
      cases hsome
    · rw [if_neg ht] at hsome
      cases hsome
      exact ⟨r, hr, ht, rfl⟩
  · rintro ⟨r, hr, ht, rfl⟩
    refine ⟨(_micros r.cost_micros, r.conversions, _div (_micros r.cost_micros) r.conversions, r),
      ?_, ?_⟩
    · rw [List.mem_map]
      exact ⟨r, hr, rfl⟩
    · rw [if_neg ht]

theorem batchMedianCpa_row_form (rows : List SearchTermRow) :
    batchMedianCpa rows =
      _med ((rows.filter fun r =>
          decide (0 < r.conversions) && decide (0 < _div (_micros r.cost_micros) r.conversions)).map
        fun r => _div (_micros r.cost_micros) r.conversions) := by
  unfold batchMedianCpa stBase
  congr 1
  induction rows with
  | nil => rfl
  | cons r t ih =>
    by_cases hc : (decide (0 < r.conversions) && decide (0 < _div (_micros r.cost_micros) r.conversions)) = true
    · simp only [List.map_cons, List.filter_cons, hc]
      simp [ih]
    · simp only [List.map_cons, List.filter_cons]
      rw [Bool.not_eq_true] at hc
      simp only [hc]
      exact ih

/-- C3: every record emitted by `_xf_search_terms` is labeled "winner" iff
conversions ≥ 1 and (median_cpa = 0 or (cpa > 0 and cpa ≤ median_cpa × 0.8)),
"loser" iff conversions < 1, spend ≥ 100 and conversions = 0, and "neutral"
otherwise, where median_cpa is the per-batch `batchMedianCpa` — the median of
cpa over the rows with conversions > 0 and cpa > 0, or 0 if that subset is
empty — computed once by the two-pass transform. -/
theorem search_term_label_rule (rows : List SearchTermRow) (rec : SearchTermRec)
    (h : rec ∈ _xf_search_terms rows) :
    (rec.label = "winner" ↔ 1 ≤ rec.conversions ∧
      (batchMedianCpa rows = 0 ∨ (0 < rec.cpa ∧ rec.cpa ≤ batchMedianCpa rows * 0.8))) ∧
    (rec.label = "loser" ↔ rec.conversions < 1 ∧ 100 ≤ rec.spend ∧ rec.conversions = 0) ∧
    (rec.label = "neutral" ↔
      ¬(1 ≤ rec.conversions ∧
        (batchMedianCpa rows = 0 ∨ (0 < rec.cpa ∧ rec.cpa ≤ batchMedianCpa rows * 0.8))) ∧
      ¬(rec.conversions < 1 ∧ 100 ≤ rec.spend ∧ rec.conversions = 0)) ∧
    batchMedianCpa rows =
      _med ((rows.filter fun r =>
          decide (0 < r.conversions) && decide (0 < _div (_micros r.cost_micros) r.conversions)).map
        fun r => _div (_micros r.cost_micros) r.conversions) := by
  rw [mem_xf_search_terms] at h
  obtain ⟨r, hr, ht, rfl⟩ := h
  have hiff := classify_label_iff (_micros r.cost_micros) r.conversions
    (_div (_micros r.cost_micros) r.conversions) (batchMedianCpa rows)
  exact ⟨hiff.1, hiff.2.1, hiff.2.2, batchMedianCpa_row_form rows⟩

theorem search_term_label_rule_witness :
    ((_xf_search_terms [stRowA]).getD 0 dfltSearchTermRec ∈ _xf_search_terms [stRowA]) ∧
    (((_xf_search_terms [stRowA]).getD 0 dfltSearchTermRec).label = "neutral" ↔
      ¬(1 ≤ ((_xf_search_terms [stRowA]).getD 0 dfltSearchTermRec).conversions ∧
        (batchMedianCpa [stRowA] = 0 ∨
          (0 < ((_xf_search_terms [stRowA]).getD 0 dfltSearchTermRec).cpa ∧
            ((_xf_search_terms [stRowA]).getD 0 dfltSearchTermRec).cpa ≤ batchMedianCpa [stRowA] * 0.8))) ∧
      ¬(((_xf_search_terms [stRowA]).getD 0 dfltSearchTermRec).conversions < 1 ∧
        100 ≤ ((_xf_search_terms [stRowA]).getD 0 dfltSearchTermRec).spend ∧
        ((_xf_search_terms [stRowA]).getD 0 dfltSearchTermRec).conversions = 0)) :=
  ⟨by decide, (search_term_label_rule [stRowA] _ (by decide)).2.2.1⟩

theorem make_id_witness :
    (((_make_id ["a"]).data.getD 0 '0') ∈ (_make_id ["a"]).data) ∧
    ((_make_id ["a"]).data.getD 0 '0') ∈ hexChars ∧
    (_make_id ["a"]).length = 16 :=
  ⟨by decide, make_id_deterministic_hex.2.2.2 ["a"] _ (by decide),
   make_id_deterministic_hex.2.2.1 ["a"]⟩

/-- C10: a search-term row whose term is empty produces no Output Record, yet
its CPA still enters the batch CPA sample when its conversions and cpa are
positive, so a skipped row can change the labels of the emitted rows: adding
the empty-term row `stRowE` to the batch flips `stRowA`'s label from
"neutral" to "winner" by moving the batch median. -/
theorem empty_search_terms_skipped_but_sampled :
    (∀ (rows : List SearchTermRow) (rec : SearchTermRec),
      rec ∈ _xf_search_terms rows → rec.search_term ≠ "") ∧
    stRowE.search_term = "" ∧
    0 < stRowE.conversions ∧
    0 < _div (_micros stRowE.cost_micros) stRowE.conversions ∧
    ((_xf_search_terms [stRowA]).map fun rec => (rec.search_term, rec.label)) =
      [("guardian life insurance", "neutral")] ∧
    ((_xf_search_terms [stRowE, stRowA]).map fun rec => (rec.search_term, rec.label)) =
      [("guardian life insurance", "winner")] ∧
    batchMedianCpa [stRowA] ≠ batchMedianCpa [stRowE, stRowA] := by
  refine ⟨?_, by decide, by decide, by decide, by decide, by decide, by decide⟩
  intro rows rec h
  rw [mem_xf_search_terms] at h
  obtain ⟨r, hr, ht, rfl⟩ := h
  exact ht

theorem empty_search_terms_witness :
    ((_xf_search_terms [stRowE, stRowA]).getD 0 dfltSearchTermRec ∈ _xf_search_terms [stRowE, stRowA]) ∧
    ((_xf_search_terms [stRowE, stRowA]).getD 0 dfltSearchTermRec).search_term ≠ "" :=
  ⟨by decide, empty_search_terms_skipped_but_sampled.1 [stRowE, stRowA] _ (by decide)⟩

theorem mem_keys_dictInsert {κ β : Type} [DecidableEq κ] (k k1 : κ) (v : β)
    (d : List (κ × β)) :
    k1 ∈ (dictInsert k v d).map Prod.fst ↔ k1 = k ∨ k1 ∈ d.map Prod.fst := by
  induction d with
  | nil => simp [dictInsert]
  | cons p t ih =>
    obtain ⟨k0, v0⟩ := p
    by_cases hk : k0 = k
    · subst hk
      simp [dictInsert]
    · simp only [dictInsert, if_neg hk, List.map_cons, List.mem_cons, ih]
      tauto

theorem dictInsert_cons_eq {κ β : Type} [DecidableEq κ] (k : κ) (v v0 : β)
    (t : List (κ × β)) : dictInsert k v ((k, v0) :: t) = (k, v) :: t := by
  simp [dictInsert]

theorem dictInsert_cons_ne {κ β : Type} [DecidableEq κ] {k k0 : κ} (hk : k0 ≠ k)
    (v v0 : β) (t : List (κ × β)) :
    dictInsert k v ((k0, v0) :: t) = (k0, v0) :: dictInsert k v t := by
  simp [dictInsert, hk]

theorem dictInsert_keys_nodup {κ β : Type} [DecidableEq κ] (k : κ) (v : β)
    (d : List (κ × β)) (h : (d.map Prod.fst).Nodup) :
    ((dictInsert k v d).map Prod.fst).Nodup := by
  induction d with
  | nil => simp [dictInsert]
  | cons p t ih =>
    obtain ⟨k0, v0⟩ := p
    simp only [List.map_cons, List.nodup_cons] at h
    by_cases hk : k0 = k
    · subst hk
      rw [dictInsert_cons_eq]
      simp only [List.map_cons, List.nodup_cons]
      exact ⟨h.1, h.2⟩
    · rw [dictInsert_cons_ne hk]
      simp only [List.map_cons, List.nodup_cons]
      refine ⟨?_, ih h.2⟩
      rw [mem_keys_dictInsert]
      rintro (rfl | hmem)
      · exact hk rfl
      · exact h.1 hmem

theorem mem_dictInsert {κ β : Type} [DecidableEq κ] (k k1 : κ) (v v1 : β)
    (d : List (κ × β)) (h : (d.map Prod.fst).Nodup) :
    (k1, v1) ∈ dictInsert k v d ↔ (k1 = k ∧ v1 = v) ∨ (k1 ≠ k ∧ (k1, v1) ∈ d) := by
  induction d with
  | nil => simp [dictInsert, Prod.ext_iff]
  | cons p t ih =>
    obtain ⟨k0, v0⟩ := p
    simp only [List.map_cons, List.nodup_cons] at h
    by_cases hk : k0 = k
    · subst hk
      rw [dictInsert_cons_eq]
      constructor
      · intro hmem
        rcases List.mem_cons.mp hmem with he | hmem2
        · rw [Prod.mk.injEq] at he
          exact .inl he
        · have hne : k1 ≠ k0 := by
            rintro rfl
            exact h.1 (List.mem_map.mpr ⟨(k1, v1), hmem2, rfl⟩)
          exact .inr ⟨hne, List.mem_cons_of_mem _ hmem2⟩
      · rintro (⟨rfl, rfl⟩ | ⟨hne, hmem2⟩)
        · exact List.mem_cons_self _ _
        · rcases List.mem_cons.mp hmem2 with he | hmem3
          · rw [Prod.mk.injEq] at he
            exact absurd he.1 hne
          · exact List.mem_cons_of_mem _ hmem3
    · rw [dictInsert_cons_ne hk]
      constructor
      · intro hmem
        rcases List.mem_cons.mp hmem with he | hmem2
        · rw [Prod.mk.injEq] at he
          obtain ⟨rfl, rfl⟩ := he
          exact .inr ⟨fun he2 => hk he2, List.mem_cons_self _ _⟩
        · rcases (ih h.2).mp hmem2 with ⟨rfl, rfl⟩ | ⟨hne, hmem3⟩
          · exact .inl ⟨rfl, rfl⟩
          · exact .inr ⟨hne, List.mem_cons_of_mem _ hmem3⟩
      · rintro (⟨rfl, rfl⟩ | ⟨hne, hmem2⟩)
        · exact List.mem_cons_of_mem _ ((ih h.2).mpr (.inl ⟨rfl, rfl⟩))
        · rcases List.mem_cons.mp hmem2 with he | hmem3
          · rw [Prod.mk.injEq] at he
            obtain ⟨rfl, rfl⟩ := he
            exact List.mem_cons_self _ _
          · exact List.mem_cons_of_mem _ ((ih h.2).mpr (.inr ⟨hne, hmem3⟩))

theorem buildSeen_snoc (l : List UpsertRec) (x : UpsertRec) :
    buildSeen (l ++ [x]) = dictInsert (recKey x) l.length (buildSeen l) := by
  unfold buildSeen
  rw [List.enum_append, List.foldl_append]
  simp [List.enumFrom]

theorem buildSeen_keys_nodup (records : List UpsertRec) :
    ((buildSeen records).map Prod.fst).Nodup := by
  induction records using List.reverseRecOn with
  | nil => simp [buildSeen]
  | append_singleton l x ih =>
    rw [buildSeen_snoc]
    exact dictInsert_keys_nodup _ _ _ ih

theorem mem_buildSeen (records : List UpsertRec) (k : String × String) (i : Nat) :
    (k, i) ∈ buildSeen records ↔
      i < records.length ∧ recKey (records.getD i dfltUpsertRec) = k ∧
        ∀ j, i < j → j < records.length →
          recKey (records.getD j dfltUpsertRec) ≠ k := by
  induction records using List.reverseRecOn with
  | nil => simp [buildSeen]
  | append_singleton l x ih =>
    rw [buildSeen_snoc, mem_dictInsert _ _ _ _ _ (buildSeen_keys_nodup l)]
    have hlen : (l ++ [x]).length = l.length + 1 := by simp
    constructor
    · rintro (⟨rfl, rfl⟩ | ⟨hne, hmem⟩)
      · refine ⟨by omega, ?_, ?_⟩
        · rw [List.getD_append_right _ _ _ _ le_rfl]
          simp
        · intro j hij hjlen
          rw [hlen] at hjlen
          omega
      · obtain ⟨hi, hkey, hlast⟩ := ih.mp hmem
        refine ⟨by omega, ?_, ?_⟩
        · rw [List.getD_append _ _ _ _ hi]
          exact hkey
        · intro j hij hjlen
          rw [hlen] at hjlen
          rcases Nat.lt_or_ge j l.length with hj | hj
          · rw [List.getD_append _ _ _ _ hj]
            exact hlast j hij hj
          · have hje : j = l.length := by omega
            subst hje
            rw [List.getD_append_right _ _ _ _ le_rfl]
            simpa using fun he => hne he.symm
    · rintro ⟨hi, hkey, hlast⟩
      rw [hlen] at hi
      rcases Nat.lt_or_ge i l.length with hil | hil
      · right
        constructor
        · intro hkx
          have hx := hlast l.length hil (by omega)
          rw [List.getD_append_right _ _ _ _ le_rfl] at hx
          simp at hx
          exact hx hkx.symm
        · apply ih.mpr
          refine ⟨hil, ?_, ?_⟩
          · rw [List.getD_append _ _ _ _ hil] at hkey
            exact hkey
          · intro j hij hjl
            have hx := hlast j hij (by omega)
            rw [List.getD_append _ _ _ _ hjl] at hx
            exact hx
      · left
        have hieq : i = l.length := by omega
        subst hieq
        rw [List.getD_append_right _ _ _ _ le_rfl] at hkey
        simp at hkey
        exact ⟨hkey.symm, rfl⟩

theorem buildSeen_snd_nodup (records : List UpsertRec) :
    ((buildSeen records).map Prod.snd).Nodup := by
  refine List.Nodup.map_on ?_ (List.Nodup.of_map Prod.fst (buildSeen_keys_nodup records))
  rintro ⟨k1, i1⟩ h1 ⟨k2, i2⟩ h2 heq
  simp only at heq
  subst heq
  have c1 := ((mem_buildSeen records k1 i1).mp h1).2.1
  have c2 := ((mem_buildSeen records k2 i1).mp h2).2.1
  rw [c1.symm.trans c2]

theorem buildSeen_covers (records : List UpsertRec) :
    ∀ r ∈ records, ∃ i, (recKey r, i) ∈ buildSeen records := by
  induction records using List.reverseRecOn with
  | nil => simp
  | append_singleton l x ih =>
    intro r hr
    rw [List.mem_append] at hr
    rcases hr with hr | hr
    · by_cases hk : recKey r = recKey x
      · refine ⟨l.length, ?_⟩
        rw [buildSeen_snoc, mem_dictInsert _ _ _ _ _ (buildSeen_keys_nodup l)]
        exact .inl ⟨hk, rfl⟩
      · obtain ⟨i, hi⟩ := ih r hr
        refine ⟨i, ?_⟩
        rw [buildSeen_snoc, mem_dictInsert _ _ _ _ _ (buildSeen_keys_nodup l)]
        exact .inr ⟨hk, hi⟩
    · simp only [List.mem_singleton] at hr
      subst hr
      refine ⟨l.length, ?_⟩
      rw [buildSeen_snoc, mem_dictInsert _ _ _ _ _ (buildSeen_keys_nodup l)]
      exact .inl ⟨rfl, rfl⟩

theorem mem_lastIdx_iff (records : List UpsertRec) (i : Nat) :
    i ∈ (List.range records.length).filter (fun i => isLastOccurrence records i) ↔
      ∃ k, (k, i) ∈ buildSeen records := by
  rw [List.mem_filter, List.mem_range]
  unfold isLastOccurrence
  rw [List.all_eq_true]
  constructor
  · rintro ⟨hi, hall⟩
    refine ⟨recKey (records.getD i dfltUpsertRec), (mem_buildSeen _ _ _).mpr ⟨hi, rfl, ?_⟩⟩
    intro j hij hjlen
    have := hall j (List.mem_range.mpr hjlen)
    rcases Bool.or_eq_true _ _ |>.mp this with hle | hne
    · exact absurd (of_decide_eq_true hle) (by omega)
    · exact of_decide_eq_true hne
  · rintro ⟨k, hk⟩
    obtain ⟨hi, hkey, hlast⟩ := (mem_buildSeen _ _ _).mp hk
    refine ⟨hi, ?_⟩
    intro j hj
    rw [List.mem_range] at hj
    rcases le_or_lt j i with hle | hlt
    · exact Bool.or_eq_true _ _ |>.mpr (.inl (decide_eq_true hle))
    · refine Bool.or_eq_true _ _ |>.mpr (.inr (decide_eq_true ?_))
      rw [hkey]
      exact hlast j hlt hj

theorem dedupe_eq_lastOccurrences (records : List UpsertRec) :
    _dedupe records = lastOccurrences records := by
  unfold _dedupe lastOccurrences
  congr 1
  apply List.eq_of_perm_of_sorted (r := (· ≤ · : Nat → Nat → Prop))
  · rw [List.perm_ext_iff_of_nodup]
    · intro i
      rw [(List.perm_insertionSort _ _).mem_iff, mem_lastIdx_iff, List.mem_map]
      constructor
      · rintro ⟨⟨k, j⟩, hmem, rfl⟩
        exact ⟨k, hmem⟩
      · rintro ⟨k, hk⟩
        exact ⟨(k, i), hk, rfl⟩
    · exact (List.perm_insertionSort _ _).nodup_iff.mpr (buildSeen_snd_nodup records)
    · exact (List.nodup_range _).filter _
  · exact List.sorted_insertionSort _ _
  · exact List.Pairwise.filter _ (List.pairwise_le_range _)

theorem dedupe_keys_nodup (records : List UpsertRec) :
    ((_dedupe records).map recKey).Nodup := by
  rw [dedupe_eq_lastOccurrences]
  unfold lastOccurrences
  rw [List.map_map]
  refine List.Nodup.map_on ?_ ((List.nodup_range _).filter _)
  intro i hi j hj heq
  rw [mem_lastIdx_iff] at hi hj
  obtain ⟨ki, hki⟩ := hi
  obtain ⟨kj, hkj⟩ := hj
  obtain ⟨hilen, hikey, hilast⟩ := (mem_buildSeen _ _ _).mp hki
  obtain ⟨hjlen, hjkey, hjlast⟩ := (mem_buildSeen _ _ _).mp hkj
  simp only [Function.comp] at heq
  rcases lt_trichotomy i j with hlt | heqij | hgt
  · exact absurd (heq ▸ hikey) (hilast j hlt hjlen)
  · exact heqij
  · exact absurd (heq ▸ hjkey).symm fun hc => (hjlast i hgt hilen) hc.symm

theorem dedupe_covers (records : List UpsertRec) :
    ∀ r ∈ records, ∃ s ∈ _dedupe records, recKey s = recKey r := by
  intro r hr
  obtain ⟨i, hi⟩ := buildSeen_covers records r hr
  have hiA : i ∈ ((buildSeen records).map Prod.snd).insertionSort (· ≤ ·) := by
    rw [(List.perm_insertionSort _ _).mem_iff]
    exact List.mem_map.mpr ⟨(recKey r, i), hi, rfl⟩
  refine ⟨records.getD i dfltUpsertRec, ?_, ?_⟩
  · exact List.mem_map_of_mem _ hiA
  · exact ((mem_buildSeen records (recKey r) i).mp hi).2.1

/-- C5: `_dedupe` keeps, for each (id, date) key, exactly the record appearing
last in input order — its output is precisely the sublist of last occurrences,
each key occurs exactly once in it, and every input key is retained. -/
theorem dedupe_keeps_last (records : List UpsertRec) :
    _dedupe records = lastOccurrences records ∧
    ((_dedupe records).map recKey).Nodup ∧
    ∀ r ∈ records, ∃ s ∈ _dedupe records, recKey s = recKey r :=
  ⟨dedupe_eq_lastOccurrences records, dedupe_keys_nodup records, dedupe_covers records⟩

theorem dedupe_keeps_last_witness :
    (upsB ∈ [upsA, upsB]) ∧
    (∃ s ∈ _dedupe [upsA, upsB], recKey s = recKey upsB) ∧
    _dedupe [upsA, upsB] = [upsB] :=
  ⟨by decide, (dedupe_keeps_last [upsA, upsB]).2.2 upsB (by decide), by decide⟩

theorem chunksOfAux_nil {α : Type} (n fuel : Nat) :
    chunksOfAux n fuel ([] : List α) = [] := by
  cases fuel <;> rfl

theorem chunksOfAux_fuel {α : Type} (n : Nat) (hn : 0 < n) :
    ∀ fuel1 fuel2 (l : List α), l.length ≤ fuel1 → l.length ≤ fuel2 →
      chunksOfAux n fuel1 l = chunksOfAux n fuel2 l := by
  intro fuel1
  induction fuel1 with
  | zero =>
    intro fuel2 l h1 h2
    have : l = [] := List.eq_nil_of_length_eq_zero (by omega)
    subst this
    rw [chunksOfAux_nil, chunksOfAux_nil]
  | succ m ih =>
    intro fuel2 l h1 h2
    rcases l with _ | ⟨x, xs⟩
    · rw [chunksOfAux_nil, chunksOfAux_nil]
    · rcases fuel2 with _ | f2
      · simp at h2
      · show (x :: xs).take n :: chunksOfAux n m ((x :: xs).drop n) =
          (x :: xs).take n :: chunksOfAux n f2 ((x :: xs).drop n)
        congr 1
        have hlc : (x :: xs).length = xs.length + 1 := by simp
        apply ih
        · rw [List.length_drop]
          omega
        · rw [List.length_drop]
          omega

theorem chunksOf_cons_eq {α : Type} (n : Nat) (hn : 0 < n) (l : List α) (hl : l ≠ []) :
    chunksOf n l = l.take n :: chunksOf n (l.drop n) := by
  obtain ⟨x, xs, rfl⟩ := List.exists_cons_of_ne_nil hl
  show chunksOfAux n (xs.length + 1) (x :: xs) = _
  show (x :: xs).take n :: chunksOfAux n xs.length ((x :: xs).drop n) = _
  congr 1
  apply chunksOfAux_fuel n hn
  · rw [List.length_drop]
    simp
    omega
  · exact le_rfl

theorem chunksOf_flatten {α : Type} (n : Nat) (hn : 0 < n) (l : List α) :
    (chunksOf n l).flatten = l := by
  have main : ∀ (m : Nat) (l2 : List α), l2.length ≤ m → (chunksOf n l2).flatten = l2 := by
    intro m
    induction m with
    | zero =>
      intro l2 h2
      have : l2 = [] := List.eq_nil_of_length_eq_zero (by omega)
      subst this
      rfl
    | succ m ih =>
      intro l2 h2
      rcases eq_or_ne l2 [] with rfl | hne
      · rfl
      · rw [chunksOf_cons_eq n hn l2 hne, List.flatten_cons]
        rw [ih (l2.drop n) (by
          rw [List.length_drop]
          have := List.length_pos.mpr hne
          omega)]
        exact List.take_append_drop n l2
  exact main l.length l le_rfl

theorem chunksOf_length_le {α : Type} (n : Nat) (hn : 0 < n) (l : List α) :
    ∀ c ∈ chunksOf n l, c.length ≤ n := by
  have main : ∀ (m : Nat) (l2 : List α), l2.length ≤ m →
      ∀ c ∈ chunksOf n l2, c.length ≤ n := by
    intro m
    induction m with
    | zero =>
      intro l2 h2 c hc
      have : l2 = [] := List.eq_nil_of_length_eq_zero (by omega)
      subst this
      cases hc
    | succ m ih =>
      intro l2 h2 c hc
      rcases eq_or_ne l2 [] with rfl | hne
      · cases hc
      · rw [chunksOf_cons_eq n hn l2 hne] at hc
        rcases List.mem_cons.mp hc with rfl | hc2
        · rw [List.length_take]
          omega
        · exact ih (l2.drop n) (by
            rw [List.length_drop]
            have := List.length_pos.mpr hne
            omega) c hc2
  exact main l.length l le_rfl

theorem chunksOf_450 {α : Type} (l : List α) (hl : l.length = 450) :
    (chunksOf 200 l).map List.length = [200, 200, 50] := by
  have h1 : l ≠ [] := by
    intro h
    rw [h] at hl
    simp at hl
  rw [chunksOf_cons_eq 200 (by omega) l h1]
  have hd1 : (l.drop 200).length = 250 := by rw [List.length_drop, hl]
  have h2 : l.drop 200 ≠ [] := by
    intro h
    rw [h] at hd1
    simp at hd1
  rw [chunksOf_cons_eq 200 (by omega) _ h2]
  have hd2 : ((l.drop 200).drop 200).length = 50 := by rw [List.length_drop, hd1]
  have h3 : (l.drop 200).drop 200 ≠ [] := by
    intro h
    rw [h] at hd2
    simp at hd2
  rw [chunksOf_cons_eq 200 (by omega) _ h3]
  have hd3 : (((l.drop 200).drop 200).drop 200).length = 0 := by
    rw [List.length_drop, hd2]
  rw [List.eq_nil_of_length_eq_zero hd3]
  show ((l.take 200).length :: ((l.drop 200).take 200).length ::
    (((l.drop 200).drop 200).take 200).length :: List.map List.length (chunksOf 200 [])) = _
  rw [List.length_take, List.length_take, List.length_take, hl, hd1, hd2]
  rfl

theorem foldl_geoInsert_flat (lookup : List String → List GeoConstantRow)
    (chunks : List (List String)) (init : List (String × GeoInfo)) :
    chunks.foldl (fun resolved chunk => (lookup chunk).foldl geoInsert resolved) init =
      ((chunks.map lookup).flatten).foldl geoInsert init := by
  induction chunks generalizing init with
  | nil => rfl
  | cons c t ih =>
    show t.foldl _ ((lookup c).foldl geoInsert init) = _
    rw [ih, List.map_cons, List.flatten_cons, List.foldl_append]

theorem geo_details_eq_flat (lookup : List String → List GeoConstantRow)
    (ids : List String) :
    _geo_target_details lookup ids =
      ((chunksOf 200 ids).map lookup).flatten.foldl geoInsert [] := by
  unfold _geo_target_details
  by_cases h : ids = []
  · subst h
    rw [if_pos rfl]
    rfl
  · rw [if_neg h, foldl_geoInsert_flat]

theorem dictGet?_cons {κ β : Type} [DecidableEq κ] (k0 k1 : κ) (v0 : β)
    (t : List (κ × β)) :
    dictGet? k1 ((k0, v0) :: t) = if k0 = k1 then some v0 else dictGet? k1 t := rfl

theorem dictGet?_dictInsert {κ β : Type} [DecidableEq κ] (k k1 : κ) (v : β)
    (d : List (κ × β)) :
    dictGet? k1 (dictInsert k v d) = if k1 = k then some v else dictGet? k1 d := by
  induction d with
  | nil =>
    rw [show dictInsert k v ([] : List (κ × β)) = [(k, v)] from rfl, dictGet?_cons]
    by_cases h : k1 = k
    · rw [if_pos h.symm, if_pos h]
    · rw [if_neg fun he => h he.symm, if_neg h]
  | cons p t ih =>
    obtain ⟨k0, v0⟩ := p
    by_cases hk : k0 = k
    · subst hk
      rw [dictInsert_cons_eq, dictGet?_cons, dictGet?_cons]
      by_cases h : k0 = k1
      · rw [if_pos h, if_pos h.symm]
      · rw [if_neg h, if_neg fun he => h he.symm, if_neg h]
    · rw [dictInsert_cons_ne hk, dictGet?_cons, ih, dictGet?_cons]
      by_cases h : k0 = k1
      · subst h
        rw [if_pos rfl, if_neg hk, if_pos rfl]
      · rw [if_neg h]
        by_cases h2 : k1 = k
        · rw [if_pos h2, if_pos h2]
        · rw [if_neg h2, if_neg h2, if_neg h]

theorem foldl_geoInsert_get (rows : List GeoConstantRow)
    (init : List (String × GeoInfo)) (k : String) :
    dictGet? k (rows.foldl geoInsert init) =
      match findLastGeoRow rows k with
      | some row => some (geoInfoOf row)
      | none => dictGet? k init := by
  induction rows generalizing init with
  | nil => rfl
  | cons r t ih =>
    show dictGet? k (t.foldl geoInsert (geoInsert init r)) = _
    rw [ih]
    unfold findLastGeoRow
    rw [List.reverse_cons, List.find?_append]
    cases hf : t.reverse.find? (fun row => decide (toString row.id = k)) with
    | some row => rfl
    | none =>
      show dictGet? k (dictInsert (toString r.id) (geoInfoOf r) init) = _
      rw [dictGet?_dictInsert]
      by_cases hp : toString r.id = k
      · rw [if_pos hp.symm]
        have hfr : List.find? (fun row => decide (toString row.id = k)) [r] = some r := by
          simp [List.find?, hp]
        rw [hfr]
        rfl
      · rw [if_neg fun he => hp he.symm]
        have hfr : List.find? (fun row => decide (toString row.id = k)) [r] = none := by
          simp [List.find?, hp]
        rw [hfr]
        rfl

theorem geo_details_resolves (lookup : List String → List GeoConstantRow)
    (ids : List String) (chunk : List String) (hc : chunk ∈ chunksOf 200 ids)
    (row : GeoConstantRow) (hr : row ∈ lookup chunk) :
    ∃ row2, row2 ∈ ((chunksOf 200 ids).map lookup).flatten ∧
      toString row2.id = toString row.id ∧
      dictGet? (toString row.id) (_geo_target_details lookup ids) =
        some (geoInfoOf row2) := by
  rw [geo_details_eq_flat, foldl_geoInsert_get]
  have hmem : row ∈ ((chunksOf 200 ids).map lookup).flatten :=
    List.mem_flatten.mpr ⟨lookup chunk, List.mem_map.mpr ⟨chunk, hc, rfl⟩, hr⟩
  have hsome : (((chunksOf 200 ids).map lookup).flatten.reverse.find?
      (fun r2 => decide (toString r2.id = toString row.id))).isSome = true :=
    List.find?_isSome.mpr ⟨row, List.mem_reverse.mpr hmem, by simp⟩
  obtain ⟨row2, hrow2⟩ := Option.isSome_iff_exists.mp hsome
  have hpred := List.find?_some hrow2
  refine ⟨row2, List.mem_reverse.mp (List.mem_of_find?_eq_some hrow2),
    of_decide_eq_true hpred, ?_⟩
  unfold findLastGeoRow
  rw [hrow2]

theorem geoCriterionIds_spec (records : List GeoRec) :
    (geoCriterionIds records).Nodup ∧
    ∀ s, s ∈ geoCriterionIds records ↔
      (pyIsDigit s = true ∧ ∃ r ∈ records, pyStrip r.state_code = s) := by
  constructor
  · unfold geoCriterionIds
    exact (List.perm_insertionSort _ _).nodup_iff.mpr (List.nodup_dedup _)
  · intro s
    unfold geoCriterionIds
    rw [List.mem_insertionSort, List.mem_dedup, List.mem_filter, List.mem_map]
    constructor
    · rintro ⟨⟨r, hr, rfl⟩, hd⟩
      exact ⟨hd, r, hr, rfl⟩
    · rintro ⟨hd, r, hr, rfl⟩
      exact ⟨⟨r, hr, rfl⟩, hd⟩

/-- C7: the geo enricher collects the distinct set of identifiers and
`_geo_target_details` partitions its input into chunks of at most 200,
issuing one lookup per chunk (the chunk list below is exactly the sequence of
queries issued): its chunks concatenate back to the input, each has ≤ 200
identifiers, a 450-identifier input yields exactly the chunk sizes
[200, 200, 50], and every identifier returned by a lookup appears in the
resolved mapping bound to the details of a returned row with that identifier. -/
theorem geo_chunked_resolution (records : List GeoRec) (ids : List String)
    (lookup : List String → List GeoConstantRow) :
    ((geoCriterionIds records).Nodup ∧
      ∀ s, s ∈ geoCriterionIds records ↔
        (pyIsDigit s = true ∧ ∃ r ∈ records, pyStrip r.state_code = s)) ∧
    (chunksOf 200 ids).flatten = ids ∧
    (∀ c ∈ chunksOf 200 ids, c.length ≤ 200) ∧
    (ids.length = 450 → (chunksOf 200 ids).map List.length = [200, 200, 50]) ∧
    (∀ chunk ∈ chunksOf 200 ids, ∀ row ∈ lookup chunk,
      ∃ row2, row2 ∈ ((chunksOf 200 ids).map lookup).flatten ∧
        toString row2.id = toString row.id ∧
        dictGet? (toString row.id) (_geo_target_details lookup ids) =
          some (geoInfoOf row2)) :=
  ⟨geoCriterionIds_spec records, chunksOf_flatten 200 (by omega) ids,
   chunksOf_length_le 200 (by omega) ids, fun h => chunksOf_450 ids h,
   fun chunk hc row hr => geo_details_resolves lookup ids chunk hc row hr⟩

theorem geo_chunked_resolution_witness :
    (((List.range 450).map fun n => toString n).length = 450) ∧
    ((chunksOf 200 ((List.range 450).map fun n => toString n)).map List.length =
      [200, 200, 50]) :=
  ⟨by simp, (geo_chunked_resolution [] ((List.range 450).map fun n => toString n)
    (fun _ => [])).2.2.2.1 (by simp)⟩

/-- C6: the geo enricher maps the second-pass body over the records, and that
body leaves a record untouched when its identifier did not resolve; when it
resolved, `dma` is always overwritten with the resolved target type, a US
state/province sets `state` to the resolved name and `state_code` to the
abbreviation looked up by name in the static table (raw id fallback), any
other target sets `state` to the canonical name (resolved name when the
canonical name is empty) and `state_code` back to the raw identifier, and no
other field changes. -/
theorem geo_enrichment (lookup : List String → List GeoConstantRow) (records : List GeoRec) :
    _enrich_geo_records lookup records =
      records.map (enrichGeoRecord (_geo_target_details lookup (geoCriterionIds records))) ∧
    ∀ details : List (String × GeoInfo), ∀ rec : GeoRec,
      (dictGet? (pyStrip rec.state_code) details = none → enrichGeoRecord details rec = rec) ∧
      (∀ info, dictGet? (pyStrip rec.state_code) details = some info →
        (enrichGeoRecord details rec).dma = info.target_type ∧
        (info.country_code = "US" ∧ (info.target_type = "State" ∨ info.target_type = "Province") →
          (enrichGeoRecord details rec).state = info.name ∧
          (enrichGeoRecord details rec).state_code =
            dictGetD info.name (pyStrip rec.state_code) _US_STATE_CODE_BY_NAME) ∧
        (¬(info.country_code = "US" ∧ (info.target_type = "State" ∨ info.target_type = "Province")) →
          (enrichGeoRecord details rec).state =
            (if info.canonical_name = "" then info.name else info.canonical_name) ∧
          (enrichGeoRecord details rec).state_code = pyStrip rec.state_code) ∧
        (enrichGeoRecord details rec).id = rec.id ∧
        (enrichGeoRecord details rec).date = rec.date ∧
        (enrichGeoRecord details rec).campaign_id = rec.campaign_id ∧
        (enrichGeoRecord details rec).spend = rec.spend ∧
        (enrichGeoRecord details rec).conversions = rec.conversions) := by
  constructor
  · rfl
  · intro details rec
    constructor
    · intro hnone
      simp only [enrichGeoRecord, hnone]
    · intro info hsome
      simp only [enrichGeoRecord, hsome]
      by_cases hcond : info.country_code = "US" ∧
          (info.target_type = "State" ∨ info.target_type = "Province")
      · simp [hcond]
      · simp [hcond]

theorem geo_enrichment_witness :
    dictGet? (pyStrip geoRec0.state_code) [("21137", geoInfoOf geoConst0)] =
      some (geoInfoOf geoConst0) ∧
    (enrichGeoRecord [("21137", geoInfoOf geoConst0)] geoRec0).dma = "State" ∧
    (enrichGeoRecord [("21137", geoInfoOf geoConst0)] geoRec0).state = "Minnesota" ∧
    (enrichGeoRecord [("21137", geoInfoOf geoConst0)] geoRec0).state_code = "MN" :=
  ⟨by decide,
   (((geo_enrichment (fun _ => [geoConst0]) [geoRec0]).2 [("21137", geoInfoOf geoConst0)]
      geoRec0).2 (geoInfoOf geoConst0) (by decide)).1,
   ((((geo_enrichment (fun _ => [geoConst0]) [geoRec0]).2 [("21137", geoInfoOf geoConst0)]
      geoRec0).2 (geoInfoOf geoConst0) (by decide)).2.1 (by decide)).1,
   ((((geo_enrichment (fun _ => [geoConst0]) [geoRec0]).2 [("21137", geoInfoOf geoConst0)]
      geoRec0).2 (geoInfoOf geoConst0) (by decide)).2.1 (by decide)).2⟩

theorem processEntities_eq (entities : List (String × EntityResult)) :
    processEntities entities = (sumOk entities, errList entities) := by
  suffices h : ∀ (l : List (String × EntityResult)) (acc : Nat × List String),
      l.foldl (fun acc e =>
        match e.2 with
        | .ok n => (acc.1 + n, acc.2)
        | .err m => (acc.1, acc.2 ++ [errString e.1 m])) acc =
      (acc.1 + sumOk l, acc.2 ++ errList l) by
    unfold processEntities
    rw [h]
    simp
  intro l
  induction l with
  | nil =>
    intro acc
    simp [sumOk, errList]
  | cons e t ih =>
    intro acc
    obtain ⟨nm, res⟩ := e
    cases res with
    | ok n =>
      simp only [List.foldl_cons]
      rw [ih]
      refine Prod.ext ?_ ?_
      · simp [sumOk]
        omega
      · simp [errList]
    | err m =>
      simp only [List.foldl_cons]
      rw [ih]
      refine Prod.ext ?_ ?_
      · simp [sumOk]
      · simp [errList]

theorem strData_append (s t : String) : (s ++ t).data = s.data ++ t.data := rfl

theorem isPrefixOf_iff_chars : ∀ (p l : List Char), p.isPrefixOf l = true ↔ ∃ t, l = p ++ t := by
  intro p
  induction p with
  | nil =>
    intro l
    simp [List.isPrefixOf]
  | cons a ps ih =>
    intro l
    cases l with
    | nil => simp [List.isPrefixOf]
    | cons b bs =>
      show (a == b && ps.isPrefixOf bs) = true ↔ _
      rw [Bool.and_eq_true, beq_iff_eq, ih bs]
      constructor
      · rintro ⟨rfl, t, rfl⟩
        exact ⟨t, rfl⟩
      · rintro ⟨t, he⟩
        injection he with h1 h2
        exact ⟨h1.symm, t, h2⟩

theorem listContains_iff : ∀ (hay needle : List Char),
    listContains hay needle = true ↔ ∃ pre post, hay = pre ++ needle ++ post := by
  intro hay
  induction hay with
  | nil =>
    intro needle
    cases needle with
    | nil =>
      constructor
      · intro _
        exact ⟨[], [], rfl⟩
      · intro _
        rfl
    | cons n ns =>
      constructor
      · intro h
        cases h
      · rintro ⟨pre, post, hm⟩
        exact absurd hm.symm (by simp)
  | cons c rest ih =>
    intro needle
    cases needle with
    | nil =>
      constructor
      · intro _
        exact ⟨[], c :: rest, rfl⟩
      · intro _
        rfl
    | cons n ns =>
      show ((n :: ns).isPrefixOf (c :: rest) || listContains rest (n :: ns)) = true ↔ _
      rw [Bool.or_eq_true, isPrefixOf_iff_chars, ih]
      constructor
      · rintro (⟨t, ht⟩ | ⟨pre, post, hm⟩)
        · exact ⟨[], t, by simp [ht]⟩
        · exact ⟨c :: pre, post, by simp [hm]⟩
      · rintro ⟨pre, post, hm⟩
        cases pre with
        | nil =>
          left
          exact ⟨post, by simpa using hm⟩
        | cons x xs =>
          right
          rw [List.cons_append, List.cons_append] at hm
          injection hm with h1 h2
          exact ⟨xs, post, by simpa using h2⟩

theorem strContains_of_decomp (hay needle : String) (pre post : List Char)
    (h : hay.data = pre ++ needle.data ++ post) : strContains hay needle = true := by
  unfold strContains
  rw [listContains_iff]
  exact ⟨pre, post, h⟩

theorem joinSep_mem_decomp (sep : String) : ∀ (l : List String) (s : String), s ∈ l →
    ∃ pre post, (joinSep sep l).data = pre ++ s.data ++ post := by
  intro l
  induction l with
  | nil =>
    intro s hs
    cases hs
  | cons a t ih =>
    intro s hs
    cases t with
    | nil =>
      rw [List.mem_singleton] at hs
      subst hs
      exact ⟨[], [], by simp [joinSep]⟩
    | cons b u =>
      show ∃ pre post, (a ++ sep ++ joinSep sep (b :: u)).data = pre ++ s.data ++ post
      rcases List.mem_cons.mp hs with rfl | hs2
      · refine ⟨[], (sep ++ joinSep sep (b :: u)).data, ?_⟩
        rw [strData_append, strData_append, strData_append]
        simp
      · obtain ⟨pre, post, hd⟩ := ih s hs2
        refine ⟨(a ++ sep).data ++ pre, post, ?_⟩
        rw [strData_append, hd]
        simp

theorem joined_contains_name (entities : List (String × EntityResult)) (name msg : String)
    (h : (name, EntityResult.err msg) ∈ entities) :
    strContains (joinSep "; " (errList entities)) name = true := by
  have hmem : errString name msg ∈ errList entities := by
    unfold errList
    rw [List.mem_filterMap]
    exact ⟨(name, .err msg), h, rfl⟩
  obtain ⟨pre, post, hd⟩ := joinSep_mem_decomp "; " (errList entities) _ hmem
  apply strContains_of_decomp _ _ pre ((": " ++ msg).data ++ post)
  rw [hd]
  unfold errString
  rw [strData_append, strData_append, strData_append]
  simp

/-- C2: with a run id captured, any entity whose processing raises is caught at
the per-entity boundary — the run still returns a result: its status update is
"error", its record count is the sum of the succeeding entities' upserted
rows, the exit code is 1 (non-zero), and the concatenated error message
contains the failing entity's name; when no entity fails, the status update is
"success" and the exit code is 0. -/
theorem sync_entity_failure_isolated (i : Nat) (rest : List Nat)
    (entities : List (String × EntityResult)) (name msg : String) :
    ((name, EntityResult.err msg) ∈ entities →
      ∃ r, sync (.returned (i :: rest)) entities = Except.ok r ∧
        r.finalStatus = some "error" ∧
        r.finalRecords = some (sumOk entities) ∧
        r.exitCode = 1 ∧
        ∃ emsg, r.finalErrorMessage = some (some emsg) ∧ strContains emsg name = true) ∧
    ((∀ e ∈ entities, ∀ m, e.2 ≠ EntityResult.err m) →
      ∃ r, sync (.returned (i :: rest)) entities = Except.ok r ∧
        r.finalStatus = some "success" ∧
        r.finalRecords = some (sumOk entities) ∧
        r.exitCode = 0) := by
  have hpe := processEntities_eq entities
  constructor
  · intro hmem
    have hne : errList entities ≠ [] := by
      intro hnil
      have hin : errString name msg ∈ errList entities := by
        unfold errList
        rw [List.mem_filterMap]
        exact ⟨_, hmem, rfl⟩
      rw [hnil] at hin
      cases hin
    refine ⟨{ totalRecords := sumOk entities
              errors := errList entities
              finalStatus := some "error"
              finalRecords := some (sumOk entities)
              finalErrorMessage := some (some (joinSep "; " (errList entities)))
              exitCode := 1 }, ?_, rfl, rfl, rfl,
      ⟨joinSep "; " (errList entities), rfl, joined_contains_name entities name msg hmem⟩⟩
    simp [sync, hpe, hne]
  · intro hok
    have hnil : errList entities = [] := by
      unfold errList
      rw [List.filterMap_eq_nil_iff]
      intro e he
      obtain ⟨nm, res⟩ := e
      cases res with
      | ok n => rfl
      | err m => exact absurd rfl (hok _ he m)
    refine ⟨{ totalRecords := sumOk entities
              errors := errList entities
              finalStatus := some "success"
              finalRecords := some (sumOk entities)
              finalErrorMessage := some none
              exitCode := 0 }, ?_, rfl, rfl, rfl⟩
    simp [sync, hpe, hnil]

theorem sync_entity_failure_witness :
    (("keywords", EntityResult.err "boom") ∈
      [("campaigns", EntityResult.ok 3), ("keywords", EntityResult.err "boom")]) ∧
    (∃ r, sync (.returned [7])
        [("campaigns", EntityResult.ok 3), ("keywords", EntityResult.err "boom")] =
        Except.ok r ∧
      r.finalStatus = some "error" ∧
      r.finalRecords =
        some (sumOk [("campaigns", EntityResult.ok 3), ("keywords", EntityResult.err "boom")]) ∧
      r.exitCode = 1 ∧
      ∃ emsg, r.finalErrorMessage = some (some emsg) ∧ strContains emsg "keywords" = true) ∧
    (∃ r, sync (.returned [7]) [("campaigns", EntityResult.ok 3)] = Except.ok r ∧
      r.finalStatus = some "success" ∧
      r.finalRecords = some (sumOk [("campaigns", EntityResult.ok 3)]) ∧
      r.exitCode = 0) :=
  ⟨by decide,
   (sync_entity_failure_isolated 7 []
     [("campaigns", EntityResult.ok 3), ("keywords", EntityResult.err "boom")]
     "keywords" "boom").1 (by decide),
   (sync_entity_failure_isolated 7 [] [("campaigns", EntityResult.ok 3)] "" "").2 (by simp)⟩

/-- C8 counterexample: a `sync_log` insert that raises is NOT tolerated — the
exception propagates out of `sync` before any entity is processed, so an
insertion failure of that kind is fatal to the run, contradicting the claim
that it is always tolerated silently. -/
theorem sync_insert_raise_fatal :
    sync (.raised "connection refused") [("campaigns", EntityResult.ok 5)] =
      Except.error "connection refused" ∧
    (sync (.raised "connection refused") [("campaigns", EntityResult.ok 5)]).isOk = false :=
  ⟨rfl, rfl⟩

/-- C8 (amended): an insert that returns without data is tolerated silently —
the run proceeds through every entity without update capability (no final
status, record count or error message is written) and exits by the entity
results alone; only an insert that raises aborts the run. -/
theorem sync_insert_no_data_tolerated (entities : List (String × EntityResult)) :
    sync (.returned []) entities = Except.ok
      { totalRecords := sumOk entities
        errors := errList entities
        finalStatus := none
        finalRecords := none
        finalErrorMessage := none
        exitCode := if errList entities = [] then 0 else 1 } := by
  simp [sync, processEntities_eq entities]

end GuardianSync

